import Mathlib

/-!
Verification development for the hazard_islands simulation core.

The repository's computational core (a fixed-step RK4 integrator, a
Lotka-Volterra vector field with Type II functional response, an
interaction-matrix builder, and an event-driven simulation engine with
hurricane shocks) is embedded shallowly: JavaScript numbers are modelled
as rationals (`ℚ`), arrays as `List ℚ`, the JS `Set` of extinct indices
as a `Finset ℕ`, and the engine's two uses of `Math.random` (the
exponential waiting time and the category draw) are threaded as explicit
inputs to `step`.  `solveODE`'s `while` loop is given an explicit fuel
argument; theorems assume the fuel suffices for the loop to finish.
-/

set_option maxHeartbeats 1000000

/-- Out-of-range-safe component access, `v[i]` with default `0`. -/
def vget (v : List ℚ) (i : ℕ) : ℚ := v.getD i 0

/-- Index-aware map, mirroring `Array.prototype.map((x, i) => ...)`,
with an explicit starting index for the recursion. -/
def mapIdxFrom (f : ℕ → ℚ → ℚ) : ℕ → List ℚ → List ℚ
  | _, [] => []
  | k, x :: xs => f k x :: mapIdxFrom f (k + 1) xs

/-- Index-aware map starting at index `0`. -/
def vmapIdx (f : ℕ → ℚ → ℚ) (l : List ℚ) : List ℚ := mapIdxFrom f 0 l

theorem mapIdxFrom_getElem? (f : ℕ → ℚ → ℚ) :
    ∀ (l : List ℚ) (k i : ℕ), (mapIdxFrom f k l)[i]? = l[i]?.map (f (k + i)) := by
  intro l
  induction l with
  | nil => intro k i; simp [mapIdxFrom]
  | cons x xs ih =>
    intro k i
    cases i with
    | zero => simp [mapIdxFrom]
    | succ n =>
      simp only [mapIdxFrom, List.getElem?_cons_succ]
      rw [ih (k + 1) n]
      have : k + 1 + n = k + (n + 1) := by ring
      rw [this]

theorem vmapIdx_getElem? (f : ℕ → ℚ → ℚ) (l : List ℚ) (i : ℕ) :
    (vmapIdx f l)[i]? = l[i]?.map (f i) := by
  rw [vmapIdx, mapIdxFrom_getElem?]
  simp

theorem vget_vmapIdx (f : ℕ → ℚ → ℚ) (l : List ℚ) (i : ℕ) :
    vget (vmapIdx f l) i = match l[i]? with
      | some a => f i a
      | none => 0 := by
  rw [vget, List.getD_eq_getElem?_getD, vmapIdx_getElem?]
  cases l[i]? <;> rfl

theorem length_mapIdxFrom (f : ℕ → ℚ → ℚ) :
    ∀ (l : List ℚ) (k : ℕ), (mapIdxFrom f k l).length = l.length := by
  intro l
  induction l with
  | nil => intro k; rfl
  | cons x xs ih => intro k; simp [mapIdxFrom, ih]

theorem length_vmapIdx (f : ℕ → ℚ → ℚ) (l : List ℚ) :
    (vmapIdx f l).length = l.length := length_mapIdxFrom f l 0

/-- Signature of the ODE right-hand side `(t, y, params) => number[]`,
generic in the parameter bundle exactly as the source's `params: any`. -/
def ODEFunction (P : Type) : Type := ℚ → List ℚ → P → List ℚ

/-- Single step of the RK4 solver, translated from `rk4Step` in
`odeSolver.ts`. -/
def rk4Step {P : Type} (f : ODEFunction P) (t : ℚ) (y : List ℚ) (dt : ℚ)
    (params : P) : List ℚ :=
  let k1 := f t y params
  let y2 := vmapIdx (fun i yi => yi + dt / 2 * vget k1 i) y
  let k2 := f (t + dt / 2) y2 params
  let y3 := vmapIdx (fun i yi => yi + dt / 2 * vget k2 i) y
  let k3 := f (t + dt / 2) y3 params
  let y4 := vmapIdx (fun i yi => yi + dt * vget k3 i) y
  let k4 := f (t + dt) y4 params
  vmapIdx (fun i yi => yi + dt / 6 * (vget k1 i + 2 * vget k2 i + 2 * vget k3 i + vget k4 i)) y

/-- Loop body of `solveODE`: starting from time `t` and state `y`,
repeatedly advance by `min dt (t1 - t)` while `t < t1`, collecting the
samples produced after each step.  `fuel` bounds the number of loop
iterations of the source's `while (t < t1)` loop. -/
def solveODEFrom {P : Type} (f : ODEFunction P) (params : P) (t1 dt : ℚ) :
    ℕ → ℚ → List ℚ → List (ℚ × List ℚ)
  | 0, _, _ => []
  | fuel + 1, t, y =>
    if t < t1 then
      let stepSize := min dt (t1 - t)
      let y2 := rk4Step f t y stepSize params
      (t + stepSize, y2) :: solveODEFrom f params t1 dt fuel (t + stepSize) y2
    else []

/-- Translation of `solveODE` from `odeSolver.ts`: the initial sample
followed by the samples produced by the stepping loop. -/
def solveODE {P : Type} (f : ODEFunction P) (y0 : List ℚ) (t0 t1 dt : ℚ)
    (params : P) (fuel : ℕ) : List (ℚ × List ℚ) :=
  (t0, y0) :: solveODEFrom f params t1 dt fuel t0 y0

/-- Vector combination `y + a·k` taken componentwise over the indices of
`y`, used to phrase the classical RK4 stage formulas of the spec. -/
def specAxpy (a : ℚ) (y k : List ℚ) : List ℚ :=
  vmapIdx (fun i yi => yi + a * vget k i) y

/-- Claim C4: `rk4Step(f, t, y, dt, params)` equals the classical
four-stage Runge-Kutta update: with `k1 = f(t,y)`,
`k2 = f(t+dt/2, y+dt/2·k1)`, `k3 = f(t+dt/2, y+dt/2·k2)`,
`k4 = f(t+dt, y+dt·k3)`, the result is `y + dt/6·(k1+2k2+2k3+k4)`,
componentwise. -/
theorem C4_rk4_classical {P : Type} (f : ODEFunction P) (t : ℚ) (y : List ℚ)
    (dt : ℚ) (params : P) (i : ℕ) (hi : i < y.length) :
    vget (rk4Step f t y dt params) i =
      let k1 := f t y params
      let k2 := f (t + dt / 2) (specAxpy (dt / 2) y k1) params
      let k3 := f (t + dt / 2) (specAxpy (dt / 2) y k2) params
      let k4 := f (t + dt) (specAxpy dt y k3) params
      vget y i + dt / 6 * (vget k1 i + 2 * vget k2 i + 2 * vget k3 i + vget k4 i) := by
  show vget (rk4Step f t y dt params) i = vget y i + dt / 6 * _
  rw [rk4Step, vget_vmapIdx]
  have h := List.getElem?_eq_getElem hi
  rw [h]
  simp only [specAxpy]
  have hy : vget y i = y[i] := by
    rw [vget, List.getD_eq_getElem?_getD, h]; rfl
  rw [hy]

/-- Witness for C4 at a concrete input. -/
theorem C4_rk4_classical_witness :
    (0 : ℕ) < [(1 : ℚ), 2].length ∧
    vget (rk4Step (fun t y (_ : Unit) => y.map (fun v => v + t)) 1 [(1 : ℚ), 2] (1 / 2) ()) 0 =
      let f : ODEFunction Unit := fun t y _ => y.map (fun v => v + t)
      let t : ℚ := 1
      let y : List ℚ := [1, 2]
      let dt : ℚ := 1 / 2
      let k1 := f t y ()
      let k2 := f (t + dt / 2) (specAxpy (dt / 2) y k1) ()
      let k3 := f (t + dt / 2) (specAxpy (dt / 2) y k2) ()
      let k4 := f (t + dt) (specAxpy dt y k3) ()
      vget y 0 + dt / 6 * (vget k1 0 + 2 * vget k2 0 + 2 * vget k3 0 + vget k4 0) :=
  ⟨by decide, C4_rk4_classical (fun t y (_ : Unit) => y.map (fun v => v + t)) 1 [(1 : ℚ), 2]
    (1 / 2) () 0 (by decide)⟩

/-- Parameter bundle of the ecology model, from `ecologyModel.ts`. -/
structure EcologyParams where
  Y_mut : List (List ℚ)
  Y_comp : List (List ℚ)
  r : List ℚ
  h : List ℚ

/-- Matrix-vector multiplication, from `matVecMult` in `ecologyModel.ts`. -/
def matVecMult (matrix : List (List ℚ)) (vec : List ℚ) : List ℚ :=
  matrix.map (fun row => (vmapIdx (fun i val => val * vget vec i) row).sum)

/-- Type II saturating response, from `typeIIResponse` in `ecologyModel.ts`. -/
def typeIIResponse (mutRaw h : List ℚ) : List ℚ :=
  vmapIdx (fun i val => val / (1 + vget h i * val)) mutRaw

/-- Vector field of the Lotka-Volterra dynamics with Type II functional
response, from `ecoDynamicsTypeII` in `ecologyModel.ts`. -/
def ecoDynamicsTypeII (_t : ℚ) (N : List ℚ) (params : EcologyParams) : List ℚ :=
  let mutRaw := matVecMult params.Y_mut N
  let M := typeIIResponse mutRaw params.h
  let compSum := matVecMult params.Y_comp N
  vmapIdx (fun i Ni =>
    if Ni ≤ 0 then 0
    else Ni * (vget params.r i - Ni + vget compSum i + vget M i)) N

/-- Scalar configuration of the synthetic model, from `ModelConfig` in
`ecologyModel.ts` (the optional custom-network field is handled by its
caller and omitted here). -/
structure ModelConfig where
  nSpecies : ℕ
  mutualisticStrength : ℚ
  dispersalStrength : ℚ
  competitionStrength : ℚ
  halfSaturation : ℚ

/-- Synthetic ring-network interaction matrices, from
`generateInteractionMatrices` in `ecologyModel.ts`. -/
def generateInteractionMatrices (config : ModelConfig) :
    List (List ℚ) × List (List ℚ) :=
  let n := config.nSpecies
  let Y : ℕ → ℕ → ℚ := fun i j =>
    if i ≠ j then
      if (i + 1) % n = j ∨ (j + 1) % n = i then config.mutualisticStrength
      else config.competitionStrength
    else 0
  let Ymat := (List.range n).map (fun i => (List.range n).map (Y i))
  (Ymat.map (fun row => row.map (fun val => max 0 val)),
   Ymat.map (fun row => row.map (fun val => min 0 val)))

/-- Bipartite network input of the builder, from `networkBuilder.ts`:
optional pollination (`B`) and seed-dispersal (`S`) biadjacency matrices. -/
structure BipartiteNetwork where
  B : Option (List (List ℚ))
  S : Option (List (List ℚ))

/-- Strength parameters of the builder, from `NetworkParams` in
`networkBuilder.ts`. -/
structure NetworkParams where
  m : ℚ
  d : ℚ
  c : ℚ

/-- Result record of `buildInteractionMatrix`. -/
structure BuildResult where
  Y_mut : List (List ℚ)
  Y_comp : List (List ℚ)
  nSpecies : ℕ
deriving DecidableEq

/-- Access into an optional biadjacency matrix after zero-padding, from
`padMatrix` in `networkBuilder.ts`: in-range entries of the original
matrix, `0` outside (and everywhere when the matrix is absent). -/
def bentry (o : Option (List (List ℚ))) (i j : ℕ) : ℚ :=
  match o with
  | none => 0
  | some matrix =>
    if i < matrix.length ∧ j < (matrix.headD []).length
    then (matrix.getD i []).getD j 0 else 0

/-- Plant count `Np`: maximum row count across the supplied matrices. -/
def netNp (net : BipartiteNetwork) : ℕ :=
  max (net.B.elim 0 List.length) (net.S.elim 0 List.length)

/-- Animal count `Na`: maximum column count across the supplied matrices. -/
def netNa (net : BipartiteNetwork) : ℕ :=
  max (net.B.elim 0 (fun matrix => (matrix.headD []).length))
    (net.S.elim 0 (fun matrix => (matrix.headD []).length))

/-- Plant `i` is active in a layer when some padded edge out of it is
positive (`plant_in_B` / `plant_in_S` in the source). -/
def plantActive (o : Option (List (List ℚ))) (Na i : ℕ) : Bool :=
  (List.range Na).any (fun j => decide (0 < bentry o i j))

/-- Animal `j` is active in a layer when some padded edge into it is
positive (`animal_in_B` / `animal_in_S` in the source). -/
def animalActive (o : Option (List (List ℚ))) (Np j : ℕ) : Bool :=
  (List.range Np).any (fun i => decide (0 < bentry o i j))

/-- Number of active plants in a layer. -/
def nActivePlants (o : Option (List (List ℚ))) (Np Na : ℕ) : ℕ :=
  ((List.range Np).filter (fun i => plantActive o Na i)).length

/-- Number of active animals in a layer. -/
def nActiveAnimals (o : Option (List (List ℚ))) (Np Na : ℕ) : ℕ :=
  ((List.range Na).filter (fun j => animalActive o Np j)).length

/-- Competition denominator `max(activeCount - 1, 1)` as a rational. -/
def compDenom (n : ℕ) : ℚ := ((max (n - 1) 1 : ℕ) : ℚ)

/-- Row sum of a layer's padded matrix for plant `i`. -/
def layerRowSum (o : Option (List (List ℚ))) (Na i : ℕ) : ℚ :=
  ((List.range Na).map (fun j => bentry o i j)).sum

/-- Column sum of a layer's padded matrix for animal `j`. -/
def layerColSum (o : Option (List (List ℚ))) (Np j : ℕ) : ℚ :=
  ((List.range Np).map (fun i => bentry o i j)).sum

/-- Mutualistic contribution of a layer to cell `(i, j)` in the
plant-row/animal-column direction: `strength·w/sqrt(rowSum)` when plant
`i` has a positive edge to animal `j - Np` and a positive row sum. -/
def mutTermPA (sqrtQ : ℚ → ℚ) (o : Option (List (List ℚ))) (strength : ℚ)
    (Np Na i j : ℕ) : ℚ :=
  if i < Np ∧ Np ≤ j ∧ j < Np + Na ∧ 0 < bentry o i (j - Np) ∧
      0 < layerRowSum o Na i
  then strength * bentry o i (j - Np) / sqrtQ (layerRowSum o Na i) else 0

/-- Mutualistic contribution of a layer to cell `(i, j)` in the
animal-row/plant-column direction: `strength·w/sqrt(colSum)` when plant
`j` has a positive edge to animal `i - Np` and a positive column sum. -/
def mutTermAP (sqrtQ : ℚ → ℚ) (o : Option (List (List ℚ))) (strength : ℚ)
    (Np Na i j : ℕ) : ℚ :=
  if Np ≤ i ∧ i < Np + Na ∧ j < Np ∧ 0 < bentry o j (i - Np) ∧
      0 < layerColSum o Np (i - Np)
  then strength * bentry o j (i - Np) / sqrtQ (layerColSum o Np (i - Np)) else 0

/-- Competition contribution to a plant-plant cell `(i, j)`: per layer,
`c` over the number of other active plants, when both are active there. -/
def compTermPlants (net : BipartiteNetwork) (c : ℚ) (Np Na i j : ℕ) : ℚ :=
  if i < Np ∧ j < Np ∧ i ≠ j then
    (if plantActive net.B Na i ∧ plantActive net.B Na j
      then c / compDenom (nActivePlants net.B Np Na) else 0) +
    (if plantActive net.S Na i ∧ plantActive net.S Na j
      then c / compDenom (nActivePlants net.S Np Na) else 0)
  else 0

/-- Competition contribution to an animal-animal cell `(i, j)`. -/
def compTermAnimals (net : BipartiteNetwork) (c : ℚ) (Np Na i j : ℕ) : ℚ :=
  if Np ≤ i ∧ i < Np + Na ∧ Np ≤ j ∧ j < Np + Na ∧ i ≠ j then
    (if animalActive net.B Np (i - Np) ∧ animalActive net.B Np (j - Np)
      then c / compDenom (nActiveAnimals net.B Np Na) else 0) +
    (if animalActive net.S Np (i - Np) ∧ animalActive net.S Np (j - Np)
      then c / compDenom (nActiveAnimals net.S Np Na) else 0)
  else 0

/-- Final value of the signed accumulator cell `Y[i][j]` of
`buildInteractionMatrix`: the sum of every increment the source's loops
apply to that cell (competition within each type, plus the four
mutualism directions over the two layers). -/
def buildY (sqrtQ : ℚ → ℚ) (net : BipartiteNetwork) (par : NetworkParams)
    (i j : ℕ) : ℚ :=
  let Np := netNp net
  let Na := netNa net
  compTermPlants net par.c Np Na i j + compTermAnimals net par.c Np Na i j +
    mutTermPA sqrtQ net.B par.m Np Na i j + mutTermAP sqrtQ net.B par.m Np Na i j +
    mutTermPA sqrtQ net.S par.d Np Na i j + mutTermAP sqrtQ net.S par.d Np Na i j

/-- Translation of `buildInteractionMatrix` from `networkBuilder.ts`,
parameterized by the square-root function used for the degree
normalization (`Math.sqrt` in the source).  Returns `none` exactly when
the source throws because neither biadjacency matrix is supplied. -/
def buildInteractionMatrix (sqrtQ : ℚ → ℚ) (net : BipartiteNetwork)
    (par : NetworkParams) : Option BuildResult :=
  if net.B = none ∧ net.S = none then none
  else
    let Nt := netNp net + netNa net
    let Ymat := (List.range Nt).map
      (fun i => (List.range Nt).map (buildY sqrtQ net par i))
    some ⟨Ymat.map (fun row => row.map (fun val => max 0 val)),
          Ymat.map (fun row => row.map (fun val => min 0 val)), Nt⟩

/-- Entry access for a matrix represented as a list of rows, with `0`
outside the stored rectangle. -/
def entry (matrix : List (List ℚ)) (i j : ℕ) : ℚ := (matrix.getD i []).getD j 0

theorem entry_map_max (M : List (List ℚ)) (i j : ℕ) :
    entry (M.map (fun row => row.map (fun val => max 0 val))) i j =
      max 0 (entry M i j) := by
  simp only [entry, List.getD_eq_getElem?_getD, List.getElem?_map]
  cases hM : M[i]? with
  | none => simp
  | some row =>
    simp only [Option.map_some', Option.getD_some, List.getElem?_map]
    cases hr : row[j]? with
    | none => simp
    | some v => simp

theorem entry_map_min (M : List (List ℚ)) (i j : ℕ) :
    entry (M.map (fun row => row.map (fun val => min 0 val))) i j =
      min 0 (entry M i j) := by
  simp only [entry, List.getD_eq_getElem?_getD, List.getElem?_map]
  cases hM : M[i]? with
  | none => simp
  | some row =>
    simp only [Option.map_some', Option.getD_some, List.getElem?_map]
    cases hr : row[j]? with
    | none => simp
    | some v => simp

theorem sign_partition_of_split (v : ℚ) :
    0 ≤ max 0 v ∧ min 0 v ≤ 0 ∧ ¬(max 0 v ≠ 0 ∧ min 0 v ≠ 0) := by
  refine ⟨le_max_left 0 v, min_le_left 0 v, ?_⟩
  rcases le_total v 0 with h | h
  · intro ⟨h1, _⟩; exact h1 (max_eq_left h)
  · intro ⟨_, h2⟩; exact h2 (min_eq_left h)

/-- Claim C5: both matrix constructors split one signed accumulator by
sign, so every produced pair satisfies `Y_mut[i][j] ≥ 0`,
`Y_comp[i][j] ≤ 0`, and at most one of the two entries is nonzero. -/
theorem C5_sign_partition :
    (∀ (sqrtQ : ℚ → ℚ) (net : BipartiteNetwork) (par : NetworkParams)
        (res : BuildResult) (i j : ℕ),
        buildInteractionMatrix sqrtQ net par = some res →
        0 ≤ entry res.Y_mut i j ∧ entry res.Y_comp i j ≤ 0 ∧
          ¬(entry res.Y_mut i j ≠ 0 ∧ entry res.Y_comp i j ≠ 0)) ∧
    (∀ (config : ModelConfig) (i j : ℕ),
        0 ≤ entry (generateInteractionMatrices config).1 i j ∧
          entry (generateInteractionMatrices config).2 i j ≤ 0 ∧
          ¬(entry (generateInteractionMatrices config).1 i j ≠ 0 ∧
            entry (generateInteractionMatrices config).2 i j ≠ 0)) := by
  constructor
  · intro sqrtQ net par res i j hres
    rw [buildInteractionMatrix] at hres
    split at hres
    · exact absurd hres (by simp)
    · have hx := Option.some.inj hres
      subst hx
      dsimp only
      rw [entry_map_max, entry_map_min]
      exact sign_partition_of_split _
  · intro config i j
    rw [generateInteractionMatrices]
    dsimp only
    rw [entry_map_max, entry_map_min]
    exact sign_partition_of_split _

/-- Witness for C5 at a concrete one-edge pollination network. -/
theorem C5_sign_partition_witness :
    buildInteractionMatrix id ⟨some [[1]], none⟩ ⟨1, 1, 1⟩ =
      some ⟨[[0, 1], [1, 0]], [[0, 0], [0, 0]], 2⟩ ∧
    (0 ≤ entry (BuildResult.mk [[0, 1], [1, 0]] [[0, 0], [0, 0]] 2).Y_mut 0 1 ∧
      entry (BuildResult.mk [[0, 1], [1, 0]] [[0, 0], [0, 0]] 2).Y_comp 0 1 ≤ 0 ∧
      ¬(entry (BuildResult.mk [[0, 1], [1, 0]] [[0, 0], [0, 0]] 2).Y_mut 0 1 ≠ 0 ∧
        entry (BuildResult.mk [[0, 1], [1, 0]] [[0, 0], [0, 0]] 2).Y_comp 0 1 ≠ 0)) :=
  ⟨by decide!, C5_sign_partition.1 id ⟨some [[1]], none⟩ ⟨1, 1, 1⟩
    ⟨[[0, 1], [1, 0]], [[0, 0], [0, 0]], 2⟩ 0 1 (by decide!)⟩

/-- Hurricane category record, from `simulationEngine.ts`. -/
structure HurricaneCategory where
  name : String
  probability : ℚ
  damage : ℚ
deriving DecidableEq

/-- Engine configuration, from `SimulationConfig` in `simulationEngine.ts`. -/
structure SimulationConfig where
  hurricaneRate : ℚ
  hurricaneCategories : List HurricaneCategory
  extinctionThreshold : ℚ
  timeStep : ℚ
deriving DecidableEq

/-- Recorded hurricane event, from `HurricaneEvent` in `simulationEngine.ts`. -/
structure HurricaneEvent where
  time : ℚ
  category : String
  damage : ℚ
deriving DecidableEq

/-- Mutable simulation state, from `SimulationState` in
`simulationEngine.ts`.  The JS `Set<number>` becomes a `Finset ℕ`. -/
structure SimulationState where
  time : ℚ
  populations : List ℚ
  hurricanes : List HurricaneEvent
  extinctSpecies : Finset ℕ
  history : List (ℚ × List ℚ)
deriving DecidableEq

/-- Engine instance fields, from the `SimulationEngine` class: the
configuration, the retained initial populations, the extinction
thresholds computed at construction or reset, and the mutable state.
The ODE function and ecology parameters the class also holds are passed
to `step` explicitly. -/
structure SimulationEngine where
  config : SimulationConfig
  initialPopulations : List ℚ
  extinctionThresholds : List ℚ
  state : SimulationState
deriving DecidableEq

/-- Fresh state built by the constructor and by `reset`: time `0`, the
initial populations, empty logs, and a single history sample `(0, init)`. -/
def initState (pops : List ℚ) : SimulationState :=
  ⟨0, pops, [], ∅, [(0, pops)]⟩

/-- Engine construction, from the `SimulationEngine` constructor:
extinction thresholds are `initialPopulations[i] * config.extinctionThreshold`. -/
def mkEngine (pops : List ℚ) (cfg : SimulationConfig) : SimulationEngine :=
  ⟨cfg, pops, pops.map (fun pop => pop * cfg.extinctionThreshold), initState pops⟩

/-- Translation of `SimulationEngine.reset`: optionally replace the
initial populations (recomputing thresholds), then reinitialize state. -/
def resetEngine (eng : SimulationEngine) (newPops : Option (List ℚ)) :
    SimulationEngine :=
  match newPops with
  | some pops =>
    ⟨eng.config, pops, pops.map (fun pop => pop * eng.config.extinctionThreshold),
      initState pops⟩
  | none =>
    ⟨eng.config, eng.initialPopulations, eng.extinctionThresholds,
      initState eng.initialPopulations⟩

/-- Partial configuration accepted by `updateConfig`
(`Partial<SimulationConfig>`): absent fields are `none`. -/
structure ConfigPatch where
  hurricaneRate : Option ℚ
  hurricaneCategories : Option (List HurricaneCategory)
  extinctionThreshold : Option ℚ
  timeStep : Option ℚ
deriving DecidableEq

/-- Spread-merge `{ ...config, ...patch }` of a partial configuration
into a full one. -/
def mergeConfig (cfg : SimulationConfig) (patch : ConfigPatch) : SimulationConfig :=
  ⟨patch.hurricaneRate.getD cfg.hurricaneRate,
   patch.hurricaneCategories.getD cfg.hurricaneCategories,
   patch.extinctionThreshold.getD cfg.extinctionThreshold,
   patch.timeStep.getD cfg.timeStep⟩

/-- Translation of `SimulationEngine.updateConfig`: merge the patch into
the configuration; nothing else on the engine changes. -/
def updateConfig (patch : ConfigPatch) (eng : SimulationEngine) : SimulationEngine :=
  { eng with config := mergeConfig eng.config patch }

/-- Loop of `drawHurricaneDamage`: accumulate category probabilities in
list order and return the first category whose running total is `≥ rand`. -/
def drawDamageLoop (rand : ℚ) : ℚ → List HurricaneCategory → Option HurricaneCategory
  | _, [] => none
  | cumProb, cat :: rest =>
    if rand ≤ cumProb + cat.probability then some cat
    else drawDamageLoop rand (cumProb + cat.probability) rest

/-- Category used when the list is empty; the source would crash there
(reading fields of `undefined`), so no theorem relies on this value. -/
def defaultCategory : HurricaneCategory := ⟨"", 0, 0⟩

/-- Translation of `drawHurricaneDamage`, with the uniform draw `rand`
passed explicitly: first category whose cumulative probability reaches
`rand`, falling back to the last category. -/
def drawHurricaneDamage (rand : ℚ) (categories : List HurricaneCategory) :
    HurricaneCategory :=
  match drawDamageLoop rand 0 categories with
  | some cat => cat
  | none => categories.getLastD defaultCategory

/-- Extinction test of `step`: `newPop < this.extinctionThresholds[i]`,
which in JS is `false` when the index is out of range. -/
def belowThreshold (thresholds : List ℚ) (i : ℕ) (x : ℚ) : Bool :=
  match thresholds[i]? with
  | some th => decide (x < th)
  | none => false

/-- Shock application of `step`: multiply every population by
`(1 - damage)`, clamp to `0` and record the index as extinct when the
damaged value falls below its threshold. -/
def applyShock (thresholds : List ℚ) (damage : ℚ) (pops : List ℚ)
    (extinct : Finset ℕ) : List ℚ × Finset ℕ :=
  (vmapIdx (fun i pop =>
      if belowThreshold thresholds i (pop * (1 - damage)) then 0
      else pop * (1 - damage)) pops,
   extinct ∪ ((List.range pops.length).filter
      (fun i => belowThreshold thresholds i (vget pops i * (1 - damage)))).toFinset)

/-- Continuous phase of `step`: when the segment has positive length,
integrate with `solveODE`, append all samples but the duplicated leading
one to history, and advance time and populations to the segment's end. -/
def integrateSegment {P : Type} (f : ODEFunction P) (params : P) (fuel : ℕ)
    (timeStep : ℚ) (st : SimulationState) (actualEndTime : ℚ) : SimulationState :=
  if st.time < actualEndTime then
    let solution := solveODE f st.populations st.time actualEndTime timeStep params fuel
    { st with
      history := st.history ++ solution.tail,
      time := actualEndTime,
      populations := (solution.getLastD (st.time, st.populations)).2 }
  else st

/-- Translation of `SimulationEngine.step(duration)`.  The two
`Math.random` draws are explicit inputs: `timeToNext` is the exponential
waiting time `randomExponential` would return (only used when the
hurricane rate is positive), `randCat` the uniform draw of the category
selection.  Returns the updated engine and the event time, `null`
becoming `none`. -/
def step {P : Type} (f : ODEFunction P) (params : P) (fuel : ℕ)
    (timeToNext randCat duration : ℚ) (eng : SimulationEngine) :
    SimulationEngine × Option ℚ :=
  let startTime := eng.state.time
  let endTime := startTime + duration
  let nextHurricaneTime : Option ℚ :=
    if 0 < eng.config.hurricaneRate then
      if endTime < startTime + timeToNext then none else some (startTime + timeToNext)
    else none
  let actualEndTime := nextHurricaneTime.getD endTime
  let st1 := integrateSegment f params fuel eng.config.timeStep eng.state actualEndTime
  match nextHurricaneTime with
  | none => ({ eng with state := st1 }, none)
  | some ht =>
    let cat := drawHurricaneDamage randCat eng.config.hurricaneCategories
    let shocked := applyShock eng.extinctionThresholds cat.damage st1.populations
      st1.extinctSpecies
    ({ eng with state :=
        { st1 with
          hurricanes := st1.hurricanes ++ [⟨ht, cat.name, cat.damage⟩],
          populations := shocked.1,
          extinctSpecies := shocked.2,
          history := st1.history ++ [(ht, shocked.1)] } }, some ht)

/-- Random inputs and fuel for one `step` call of a driving sequence. -/
structure StepInput where
  duration : ℚ
  timeToNext : ℚ
  randCat : ℚ
  fuel : ℕ
deriving DecidableEq

/-- Fold a sequence of `step` calls over an engine, discarding the
returned event times. -/
def foldSteps {P : Type} (f : ODEFunction P) (params : P)
    (inputs : List StepInput) (eng : SimulationEngine) : SimulationEngine :=
  inputs.foldl
    (fun e inp => (step f params inp.fuel inp.timeToNext inp.randCat inp.duration e).1) eng

/-- Modelled from the spec words for §4.4: running cumulative
probabilities of the categories in list order, starting from `cum`. -/
def cumProbsFrom (cum : ℚ) : List HurricaneCategory → List ℚ
  | [] => []
  | cat :: rest => (cum + cat.probability) :: cumProbsFrom (cum + cat.probability) rest

/-- Modelled from the spec words for §4.4 `drawCategory`: the first
category whose cumulative probability (in list order) is `≥ U`, falling
back to the last category of the list when none qualifies. -/
def specDrawCategory (rand : ℚ) (categories : List HurricaneCategory) :
    HurricaneCategory :=
  match (categories.zip (cumProbsFrom 0 categories)).find?
      (fun pc => decide (rand ≤ pc.2)) with
  | some pc => pc.1
  | none => categories.getLastD defaultCategory

theorem drawDamageLoop_eq_find (rand : ℚ) :
    ∀ (categories : List HurricaneCategory) (cum : ℚ),
      drawDamageLoop rand cum categories =
        ((categories.zip (cumProbsFrom cum categories)).find?
          (fun pc => decide (rand ≤ pc.2))).map Prod.fst := by
  intro categories
  induction categories with
  | nil => intro cum; rfl
  | cons cat rest ih =>
    intro cum
    rw [drawDamageLoop, cumProbsFrom, List.zip_cons_cons, List.find?_cons]
    by_cases h : rand ≤ cum + cat.probability
    · rw [if_pos h]
      simp [h]
    · rw [if_neg h, decide_eq_false h]
      exact ih (cum + cat.probability)

/-- Claim C8: for every ordered category list and every draw, the
category draw returns the first category whose cumulative probability in
list order is `≥ U` (inclusive at the boundary: probabilities
`[1/2, 1/2]` with `U = 1/2` select the first category), and falls back
to the last category when the cumulative sum falls short of `U`. -/
theorem C8_category_draw :
    (∀ (rand : ℚ) (categories : List HurricaneCategory),
        drawHurricaneDamage rand categories = specDrawCategory rand categories) ∧
    (∀ (n1 n2 : String) (d1 d2 : ℚ),
        drawHurricaneDamage (1 / 2) [⟨n1, 1 / 2, d1⟩, ⟨n2, 1 / 2, d2⟩] =
          ⟨n1, 1 / 2, d1⟩) := by
  constructor
  · intro rand categories
    rw [drawHurricaneDamage, specDrawCategory, drawDamageLoop_eq_find]
    cases ((categories.zip (cumProbsFrom 0 categories)).find?
        (fun pc => decide (rand ≤ pc.2))) <;> rfl
  · intro n1 n2 d1 d2
    rw [drawHurricaneDamage, drawDamageLoop]
    rw [if_pos (by norm_num)]

theorem vget_of_getElem? {l : List ℚ} {i : ℕ} {a : ℚ} (h : l[i]? = some a) :
    vget l i = a := by
  rw [vget, List.getD_eq_getElem?_getD, h]; rfl

theorem ecoDynamicsTypeII_absorbing (t : ℚ) (N : List ℚ) (params : EcologyParams)
    (i : ℕ) (hN : vget N i ≤ 0) : vget (ecoDynamicsTypeII t N params) i = 0 := by
  simp only [ecoDynamicsTypeII]
  rw [vget_vmapIdx]
  cases hi : N[i]? with
  | none => rfl
  | some a =>
    have ha : a ≤ 0 := by rw [← vget_of_getElem? hi]; exact hN
    simp [ha]

theorem vget_stage (c : ℚ) (k y : List ℚ) (i : ℕ) (yi : ℚ) (hN : y[i]? = some yi) :
    vget (vmapIdx (fun j yj => yj + c * vget k j) y) i = yi + c * vget k i := by
  rw [vget_vmapIdx, hN]

theorem rk4Step_eco_zero (t : ℚ) (y : List ℚ) (dt : ℚ) (params : EcologyParams)
    (i : ℕ) (hy : vget y i = 0) :
    vget (rk4Step ecoDynamicsTypeII t y dt params) i = 0 := by
  simp only [rk4Step]
  rw [vget_vmapIdx]
  cases hi : y[i]? with
  | none => rfl
  | some yi =>
    have hyi : yi = 0 := by rw [← vget_of_getElem? hi]; exact hy
    have hk1 : vget (ecoDynamicsTypeII t y params) i = 0 :=
      ecoDynamicsTypeII_absorbing t y params i (le_of_eq hy)
    have hy2 : vget (vmapIdx
        (fun j yj => yj + dt / 2 * vget (ecoDynamicsTypeII t y params) j) y) i = 0 := by
      rw [vget_stage _ _ _ _ _ hi, hk1, hyi]; ring
    have hk2 : vget (ecoDynamicsTypeII (t + dt / 2)
        (vmapIdx (fun j yj => yj + dt / 2 * vget (ecoDynamicsTypeII t y params) j) y)
        params) i = 0 :=
      ecoDynamicsTypeII_absorbing _ _ params i (le_of_eq hy2)
    have hy3 : vget (vmapIdx (fun j yj => yj + dt / 2 * vget (ecoDynamicsTypeII (t + dt / 2)
        (vmapIdx (fun j yj => yj + dt / 2 * vget (ecoDynamicsTypeII t y params) j) y)
        params) j) y) i = 0 := by
      rw [vget_stage _ _ _ _ _ hi, hk2, hyi]; ring
    have hk3 : vget (ecoDynamicsTypeII (t + dt / 2)
        (vmapIdx (fun j yj => yj + dt / 2 * vget (ecoDynamicsTypeII (t + dt / 2)
          (vmapIdx (fun j yj => yj + dt / 2 * vget (ecoDynamicsTypeII t y params) j) y)
          params) j) y) params) i = 0 :=
      ecoDynamicsTypeII_absorbing _ _ params i (le_of_eq hy3)
    have hy4 : vget (vmapIdx (fun j yj => yj + dt * vget (ecoDynamicsTypeII (t + dt / 2)
        (vmapIdx (fun j yj => yj + dt / 2 * vget (ecoDynamicsTypeII (t + dt / 2)
          (vmapIdx (fun j yj => yj + dt / 2 * vget (ecoDynamicsTypeII t y params) j) y)
          params) j) y) params) j) y) i = 0 := by
      rw [vget_stage _ _ _ _ _ hi, hk3, hyi]; ring
    have hk4 : vget (ecoDynamicsTypeII (t + dt)
        (vmapIdx (fun j yj => yj + dt * vget (ecoDynamicsTypeII (t + dt / 2)
          (vmapIdx (fun j yj => yj + dt / 2 * vget (ecoDynamicsTypeII (t + dt / 2)
            (vmapIdx (fun j yj => yj + dt / 2 * vget (ecoDynamicsTypeII t y params) j) y)
            params) j) y) params) j) y) params) i = 0 :=
      ecoDynamicsTypeII_absorbing _ _ params i (le_of_eq hy4)
    rw [hk1, hk2, hk3, hk4, hyi]
    ring

theorem applyShock_zero (thresholds : List ℚ) (damage : ℚ) (pops : List ℚ)
    (extinct : Finset ℕ) (i : ℕ) (hp : vget pops i = 0) :
    vget (applyShock thresholds damage pops extinct).1 i = 0 := by
  show vget (vmapIdx _ pops) i = 0
  rw [vget_vmapIdx]
  cases hi : pops[i]? with
  | none => rfl
  | some p =>
    have hp0 : p = 0 := by rw [← vget_of_getElem? hi]; exact hp
    subst hp0
    simp

theorem solveODEFrom_eco_zero (params : EcologyParams) (t1 dt : ℚ) (i : ℕ) :
    ∀ (fuel : ℕ) (t : ℚ) (y : List ℚ), vget y i = 0 →
      ∀ pr ∈ solveODEFrom ecoDynamicsTypeII params t1 dt fuel t y, vget pr.2 i = 0 := by
  intro fuel
  induction fuel with
  | zero => intro t y _ pr hpr; simp [solveODEFrom] at hpr
  | succ n ih =>
    intro t y hy pr hpr
    rw [solveODEFrom] at hpr
    by_cases ht : t < t1
    · rw [if_pos ht] at hpr
      rcases List.mem_cons.mp hpr with h | h
      · subst h
        exact rk4Step_eco_zero _ _ _ _ _ hy
      · exact ih _ _ (rk4Step_eco_zero _ _ _ _ _ hy) pr h
    · rw [if_neg ht] at hpr
      simp at hpr

theorem getLastD_mem {α : Type} {l : List α} (d : α) (h : l ≠ []) :
    l.getLastD d ∈ l := by
  rw [List.getLastD_eq_getLast?]
  obtain ⟨b, hb⟩ := Option.isSome_iff_exists.mp (List.getLast?_isSome.mpr h)
  rw [hb]
  exact List.mem_of_getLast?_eq_some hb

theorem solveODE_getLastD_eco_zero (params : EcologyParams) (y0 : List ℚ)
    (t0 t1 dt : ℚ) (fuel : ℕ) (i : ℕ) (hy : vget y0 i = 0) :
    vget ((solveODE ecoDynamicsTypeII y0 t0 t1 dt params fuel).getLastD (t0, y0)).2 i
      = 0 := by
  rw [solveODE, List.getLastD_cons]
  by_cases hnil : solveODEFrom ecoDynamicsTypeII params t1 dt fuel t0 y0 = []
  · rw [hnil]
    exact hy
  · exact solveODEFrom_eco_zero params t1 dt i fuel t0 y0 hy _ (getLastD_mem _ hnil)

theorem integrateSegment_eco_zero (params : EcologyParams) (fuel : ℕ)
    (timeStep : ℚ) (st : SimulationState) (actualEndTime : ℚ) (i : ℕ)
    (hp : vget st.populations i = 0) :
    vget (integrateSegment ecoDynamicsTypeII params fuel timeStep st
      actualEndTime).populations i = 0 := by
  rw [integrateSegment]
  by_cases h : st.time < actualEndTime
  · rw [if_pos h]
    exact solveODE_getLastD_eco_zero params st.populations st.time actualEndTime
      timeStep fuel i hp
  · rw [if_neg h]
    exact hp

theorem step_eco_zero (params : EcologyParams) (fuel : ℕ)
    (timeToNext randCat duration : ℚ) (eng : SimulationEngine) (i : ℕ)
    (hp : vget eng.state.populations i = 0) :
    vget ((step ecoDynamicsTypeII params fuel timeToNext randCat duration
      eng).1).state.populations i = 0 := by
  rw [step]
  have hint := integrateSegment_eco_zero params fuel eng.config.timeStep eng.state
  by_cases h1 : 0 < eng.config.hurricaneRate
  · rw [if_pos h1]
    by_cases h2 : eng.state.time + duration < eng.state.time + timeToNext
    · rw [if_pos h2]
      exact hint _ i hp
    · rw [if_neg h2]
      dsimp only
      apply applyShock_zero
      exact hint _ i hp
  · rw [if_neg h1]
    exact hint _ i hp

/-- Claim C2: zero population is absorbing.  The vector field returns a
zero derivative for every component with `N[i] ≤ 0`; consequently a
component equal to `0` stays exactly `0` after `rk4Step` with this
field, after shock damage multiplication, and across a whole engine
`step` driven by this field. -/
theorem C2_absorbing_zero :
    (∀ (t : ℚ) (N : List ℚ) (params : EcologyParams) (i : ℕ),
        vget N i ≤ 0 → vget (ecoDynamicsTypeII t N params) i = 0) ∧
    (∀ (t dt : ℚ) (y : List ℚ) (params : EcologyParams) (i : ℕ),
        vget y i = 0 → vget (rk4Step ecoDynamicsTypeII t y dt params) i = 0) ∧
    (∀ (thresholds : List ℚ) (damage : ℚ) (pops : List ℚ) (extinct : Finset ℕ)
        (i : ℕ), vget pops i = 0 →
        vget (applyShock thresholds damage pops extinct).1 i = 0) ∧
    (∀ (params : EcologyParams) (fuel : ℕ) (timeToNext randCat duration : ℚ)
        (eng : SimulationEngine) (i : ℕ),
        vget eng.state.populations i = 0 →
        vget ((step ecoDynamicsTypeII params fuel timeToNext randCat duration
          eng).1).state.populations i = 0) :=
  ⟨ecoDynamicsTypeII_absorbing,
   fun t dt y params i hy => rk4Step_eco_zero t y dt params i hy,
   applyShock_zero,
   step_eco_zero⟩

/-- Witness for C2 at concrete inputs. -/
theorem C2_absorbing_zero_witness :
    vget [(0 : ℚ), 2] 0 ≤ 0 ∧
    vget (ecoDynamicsTypeII 0 [0, 2]
      ⟨[[0, 1], [1, 0]], [[0, -1], [-1, 0]], [1 / 2, 1 / 3], [1, 1]⟩) 0 = 0 ∧
    vget (rk4Step ecoDynamicsTypeII 0 [0, 2] (1 / 3)
      ⟨[[0, 1], [1, 0]], [[0, -1], [-1, 0]], [1 / 2, 1 / 3], [1, 1]⟩) 0 = 0 ∧
    vget (applyShock [1 / 100, 1 / 100] (1 / 2) [0, 2] ∅).1 0 = 0 ∧
    vget ((step ecoDynamicsTypeII
      ⟨[[0, 1], [1, 0]], [[0, -1], [-1, 0]], [1 / 2, 1 / 3], [1, 1]⟩ 0 0 0 0
      (mkEngine [0, 2] ⟨1, [⟨"h", 1, 1 / 2⟩], 1 / 100, 1 / 10⟩)).1).state.populations
      0 = 0 :=
  ⟨by decide!,
   C2_absorbing_zero.1 0 [0, 2] _ 0 (by decide!),
   C2_absorbing_zero.2.1 0 (1 / 3) [0, 2] _ 0 (by decide!),
   C2_absorbing_zero.2.2.1 [1 / 100, 1 / 100] (1 / 2) [0, 2] ∅ 0 (by decide!),
   C2_absorbing_zero.2.2.2 _ 0 0 0 0
     (mkEngine [0, 2] ⟨1, [⟨"h", 1, 1 / 2⟩], 1 / 100, 1 / 10⟩) 0 (by decide!)⟩

theorem solveODEFrom_nil {P : Type} (f : ODEFunction P) (params : P)
    (t1 dt : ℚ) (fuel : ℕ) (t : ℚ) (y : List ℚ) (ht : ¬t < t1) :
    solveODEFrom f params t1 dt fuel t y = [] := by
  cases fuel with
  | zero => rfl
  | succ n => rw [solveODEFrom, if_neg ht]

theorem getLast?_cons_of_ne_nil {α : Type} (a : α) {l : List α} (h : l ≠ []) :
    (a :: l).getLast? = l.getLast? := by
  cases l with
  | nil => exact absurd rfl h
  | cons b l' => exact List.getLast?_cons_cons

theorem solveODEFrom_chain {P : Type} (f : ODEFunction P) (params : P)
    (t1 dt : ℚ) :
    ∀ (fuel : ℕ) (t : ℚ) (y : List ℚ),
      List.Chain' (fun a b => b.1 = a.1 + min dt (t1 - a.1) ∧
          b.2 = rk4Step f a.1 a.2 (min dt (t1 - a.1)) params)
        ((t, y) :: solveODEFrom f params t1 dt fuel t y) := by
  intro fuel
  induction fuel with
  | zero => intro t y; simp [solveODEFrom]
  | succ n ih =>
    intro t y
    rw [solveODEFrom]
    by_cases ht : t < t1
    · rw [if_pos ht]
      exact List.chain'_cons.mpr ⟨⟨rfl, rfl⟩, ih _ _⟩
    · rw [if_neg ht]
      simp

theorem solveODEFrom_getLast {P : Type} (f : ODEFunction P) (params : P)
    (t1 dt : ℚ) (hdt : 0 < dt) :
    ∀ (fuel : ℕ) (t : ℚ) (y : List ℚ), t < t1 → t1 - t ≤ (fuel : ℚ) * dt →
      ∃ ylast, (solveODEFrom f params t1 dt fuel t y).getLast? = some (t1, ylast) := by
  intro fuel
  induction fuel with
  | zero =>
    intro t y ht hfuel
    exfalso
    push_cast at hfuel
    linarith
  | succ n ih =>
    intro t y ht hfuel
    rw [solveODEFrom, if_pos ht]
    dsimp only
    by_cases h2 : t + min dt (t1 - t) < t1
    · have hmin : min dt (t1 - t) = dt := by
        rcases min_choice dt (t1 - t) with h | h
        · exact h
        · rw [h] at h2; linarith
      obtain ⟨yl, hl⟩ := ih (t + min dt (t1 - t))
        (rk4Step f t y (min dt (t1 - t)) params) h2
        (by rw [hmin]; push_cast at hfuel ⊢; linarith)
      have hne : solveODEFrom f params t1 dt n (t + min dt (t1 - t))
          (rk4Step f t y (min dt (t1 - t)) params) ≠ [] := by
        intro hc
        rw [hc] at hl
        simp at hl
      rw [getLast?_cons_of_ne_nil _ hne]
      exact ⟨yl, hl⟩
    · have hle : t + min dt (t1 - t) ≤ t1 := by
        have := min_le_right dt (t1 - t)
        linarith
      have hs : t + min dt (t1 - t) = t1 := le_antisymm hle (not_lt.mp h2)
      rw [solveODEFrom_nil f params t1 dt n _ _ (by rw [hs]; exact lt_irrefl t1)]
      exact ⟨rk4Step f t y (min dt (t1 - t)) params, by simp [hs]⟩

/-- Claim C3: with `t0 < t1` and `dt > 0` (and enough fuel for the
source's `while` loop), `solveODE` starts with the record `(t0, y0)`,
advances every subsequent record by a step of `min dt (t1 - t)` via
`rk4Step`, and its final record's time is exactly `t1`, also when
`t1 - t0` is not an integer multiple of `dt`. -/
theorem C3_solveODE_endpoints {P : Type} (f : ODEFunction P) (params : P)
    (y0 : List ℚ) (t0 t1 dt : ℚ) (fuel : ℕ) (h01 : t0 < t1) (hdt : 0 < dt)
    (hfuel : t1 - t0 ≤ (fuel : ℚ) * dt) :
    (solveODE f y0 t0 t1 dt params fuel).head? = some (t0, y0) ∧
    (∃ ylast, (solveODE f y0 t0 t1 dt params fuel).getLast? = some (t1, ylast)) ∧
    List.Chain' (fun a b => b.1 = a.1 + min dt (t1 - a.1) ∧
        b.2 = rk4Step f a.1 a.2 (min dt (t1 - a.1)) params)
      (solveODE f y0 t0 t1 dt params fuel) := by
  refine ⟨rfl, ?_, solveODEFrom_chain f params t1 dt fuel t0 y0⟩
  obtain ⟨yl, hl⟩ := solveODEFrom_getLast f params t1 dt hdt fuel t0 y0 h01 hfuel
  refine ⟨yl, ?_⟩
  rw [solveODE, getLast?_cons_of_ne_nil _ ?hne]
  · exact hl
  · intro hc
    rw [hc] at hl
    simp at hl

/-- Witness for C3 on the zero field with a non-divisible step. -/
theorem C3_solveODE_endpoints_witness :
    (0 : ℚ) < 1 ∧ (0 : ℚ) < 2 / 5 ∧ (1 : ℚ) - 0 ≤ ((3 : ℕ) : ℚ) * (2 / 5) ∧
    ((solveODE (fun _ _ (_ : Unit) => [0]) [1] 0 1 (2 / 5) () 3).head? =
      some (0, [1]) ∧
    (∃ ylast, (solveODE (fun _ _ (_ : Unit) => [0]) [1] 0 1 (2 / 5) () 3).getLast? =
      some (1, ylast)) ∧
    List.Chain' (fun a b => b.1 = a.1 + min (2 / 5) (1 - a.1) ∧
        b.2 = rk4Step (fun _ _ (_ : Unit) => [0]) a.1 a.2 (min (2 / 5) (1 - a.1)) ())
      (solveODE (fun _ _ (_ : Unit) => [0]) [1] 0 1 (2 / 5) () 3)) :=
  ⟨by decide!, by decide!, by decide!,
   C3_solveODE_endpoints (fun _ _ (_ : Unit) => [0]) () [1] 0 1 (2 / 5) 3
     (by decide!) (by decide!) (by decide!)⟩

theorem integrateSegment_frame {P : Type} (f : ODEFunction P) (params : P)
    (fuel : ℕ) (timeStep : ℚ) (st : SimulationState) (actualEndTime : ℚ) :
    (integrateSegment f params fuel timeStep st actualEndTime).hurricanes =
      st.hurricanes ∧
    (integrateSegment f params fuel timeStep st actualEndTime).extinctSpecies =
      st.extinctSpecies ∧
    (integrateSegment f params fuel timeStep st actualEndTime).populations =
      (if st.time < actualEndTime
       then ((solveODE f st.populations st.time actualEndTime timeStep params
              fuel).getLastD (st.time, st.populations)).2
       else st.populations) := by
  rw [integrateSegment]
  by_cases h : st.time < actualEndTime
  · rw [if_pos h, if_pos h]
    exact ⟨rfl, rfl, rfl⟩
  · rw [if_neg h, if_neg h]
    exact ⟨rfl, rfl, rfl⟩

/-- Claim C10: when no event time is retained (the rate is not positive,
or the candidate time exceeds the step's end), `step` returns the
no-event sentinel, leaves the hurricane log and the extinct set
unchanged, and stores the raw integration output: populations are never
clamped to zero nor indices marked extinct by continuous integration. -/
theorem C10_no_event_frame {P : Type} (f : ODEFunction P) (params : P)
    (fuel : ℕ) (timeToNext randCat duration : ℚ) (eng : SimulationEngine)
    (h : ¬0 < eng.config.hurricaneRate ∨
      eng.state.time + duration < eng.state.time + timeToNext) :
    (step f params fuel timeToNext randCat duration eng).2 = none ∧
    ((step f params fuel timeToNext randCat duration eng).1).state.hurricanes =
      eng.state.hurricanes ∧
    ((step f params fuel timeToNext randCat duration eng).1).state.extinctSpecies =
      eng.state.extinctSpecies ∧
    ((step f params fuel timeToNext randCat duration eng).1).state.populations =
      (if eng.state.time < eng.state.time + duration
       then ((solveODE f eng.state.populations eng.state.time
              (eng.state.time + duration) eng.config.timeStep params
              fuel).getLastD (eng.state.time, eng.state.populations)).2
       else eng.state.populations) := by
  have hfr := integrateSegment_frame f params fuel eng.config.timeStep eng.state
    (eng.state.time + duration)
  rw [step]
  by_cases h1 : 0 < eng.config.hurricaneRate
  · have h2 : eng.state.time + duration < eng.state.time + timeToNext := by
      rcases h with hc | hc
      · exact absurd h1 hc
      · exact hc
    rw [if_pos h1, if_pos h2]
    dsimp only [Option.getD]
    exact ⟨rfl, hfr.1, hfr.2.1, hfr.2.2⟩
  · rw [if_neg h1]
    dsimp only [Option.getD]
    exact ⟨rfl, hfr.1, hfr.2.1, hfr.2.2⟩

/-- Witness for C10 with a zero hurricane rate. -/
theorem C10_no_event_frame_witness :
    (¬(0 : ℚ) <
      (mkEngine [1] ⟨0, [], 1 / 100, 1⟩).config.hurricaneRate) ∧
    ((step (fun _ _ (_ : Unit) => [0]) () 1 0 0 1
        (mkEngine [1] ⟨0, [], 1 / 100, 1⟩)).2 = none ∧
      ((step (fun _ _ (_ : Unit) => [0]) () 1 0 0 1
        (mkEngine [1] ⟨0, [], 1 / 100, 1⟩)).1).state.hurricanes =
        (mkEngine [1] ⟨0, [], 1 / 100, 1⟩).state.hurricanes ∧
      ((step (fun _ _ (_ : Unit) => [0]) () 1 0 0 1
        (mkEngine [1] ⟨0, [], 1 / 100, 1⟩)).1).state.extinctSpecies =
        (mkEngine [1] ⟨0, [], 1 / 100, 1⟩).state.extinctSpecies ∧
      ((step (fun _ _ (_ : Unit) => [0]) () 1 0 0 1
        (mkEngine [1] ⟨0, [], 1 / 100, 1⟩)).1).state.populations =
        (if (mkEngine [1] ⟨0, [], 1 / 100, 1⟩).state.time <
            (mkEngine [1] ⟨0, [], 1 / 100, 1⟩).state.time + 1
         then ((solveODE (fun _ _ (_ : Unit) => [0])
                (mkEngine [1] ⟨0, [], 1 / 100, 1⟩).state.populations
                (mkEngine [1] ⟨0, [], 1 / 100, 1⟩).state.time
                ((mkEngine [1] ⟨0, [], 1 / 100, 1⟩).state.time + 1)
                (mkEngine [1] ⟨0, [], 1 / 100, 1⟩).config.timeStep ()
                1).getLastD
                ((mkEngine [1] ⟨0, [], 1 / 100, 1⟩).state.time,
                  (mkEngine [1] ⟨0, [], 1 / 100, 1⟩).state.populations)).2
         else (mkEngine [1] ⟨0, [], 1 / 100, 1⟩).state.populations)) :=
  ⟨by decide!,
   C10_no_event_frame (fun _ _ (_ : Unit) => [0]) () 1 0 0 1
     (mkEngine [1] ⟨0, [], 1 / 100, 1⟩) (Or.inl (by decide!))⟩

theorem step_event {P : Type} (f : ODEFunction P) (params : P) (fuel : ℕ)
    (timeToNext randCat duration : ℚ) (eng : SimulationEngine)
    (h1 : 0 < eng.config.hurricaneRate)
    (h2 : ¬eng.state.time + duration < eng.state.time + timeToNext) :
    step f params fuel timeToNext randCat duration eng =
      (let ht := eng.state.time + timeToNext
       let st1 := integrateSegment f params fuel eng.config.timeStep eng.state ht
       let cat := drawHurricaneDamage randCat eng.config.hurricaneCategories
       let shocked := applyShock eng.extinctionThresholds cat.damage st1.populations
         st1.extinctSpecies
       ({ eng with state :=
           { st1 with
             hurricanes := st1.hurricanes ++ [⟨ht, cat.name, cat.damage⟩],
             populations := shocked.1,
             extinctSpecies := shocked.2,
             history := st1.history ++ [(ht, shocked.1)] } }, some ht)) := by
  rw [step, if_pos h1, if_neg h2]
  rfl

theorem belowThreshold_eq (thresholds : List ℚ) (i : ℕ) (x : ℚ)
    (hi : i < thresholds.length) :
    belowThreshold thresholds i x = decide (x < vget thresholds i) := by
  rw [belowThreshold, List.getElem?_eq_getElem hi,
    vget_of_getElem? (List.getElem?_eq_getElem hi)]

theorem applyShock_pops_getElem (thresholds : List ℚ) (damage : ℚ)
    (pops : List ℚ) (extinct : Finset ℕ) (i : ℕ) (p : ℚ)
    (hi : pops[i]? = some p) :
    vget (applyShock thresholds damage pops extinct).1 i =
      if belowThreshold thresholds i (p * (1 - damage)) then 0
      else p * (1 - damage) := by
  show vget (vmapIdx _ pops) i = _
  rw [vget_vmapIdx, hi]

theorem applyShock_ext_mem (thresholds : List ℚ) (damage : ℚ) (pops : List ℚ)
    (extinct : Finset ℕ) (i : ℕ) :
    i ∈ (applyShock thresholds damage pops extinct).2 ↔
      i ∈ extinct ∨ (i < pops.length ∧
        belowThreshold thresholds i (vget pops i * (1 - damage)) = true) := by
  show i ∈ extinct ∪ _ ↔ _
  rw [Finset.mem_union, List.mem_toFinset, List.mem_filter, List.mem_range]

theorem applyShock_pops_vget (thresholds : List ℚ) (damage : ℚ) (pops : List ℚ)
    (extinct : Finset ℕ) (i : ℕ) (hi : i < pops.length) :
    vget (applyShock thresholds damage pops extinct).1 i =
      if belowThreshold thresholds i (vget pops i * (1 - damage)) then 0
      else vget pops i * (1 - damage) := by
  rw [applyShock_pops_getElem thresholds damage pops extinct i pops[i]
      (List.getElem?_eq_getElem hi),
    vget_of_getElem? (List.getElem?_eq_getElem hi)]

/-- Claim C1: when a step retains a hurricane event, every species'
population is damaged to `pop[i]·(1 − D)`; a damaged value below the
fixed threshold is stored as exactly `0` and its index joins the extinct
set (a plain union, so re-adding an already-extinct index is a no-op);
otherwise the damaged value is stored unchanged and membership of `i` in
the extinct set is unchanged; and exactly one record
`(eventTime, categoryLabel, damageFraction)` is appended to the
hurricane log. -/
theorem C1_shock_application {P : Type} (f : ODEFunction P) (params : P)
    (fuel : ℕ) (timeToNext randCat duration : ℚ) (eng : SimulationEngine)
    (h1 : 0 < eng.config.hurricaneRate)
    (h2 : eng.state.time + timeToNext ≤ eng.state.time + duration) :
    let res := step f params fuel timeToNext randCat duration eng
    let st1 := integrateSegment f params fuel eng.config.timeStep eng.state
      (eng.state.time + timeToNext)
    let cat := drawHurricaneDamage randCat eng.config.hurricaneCategories
    res.2 = some (eng.state.time + timeToNext) ∧
    res.1.state.hurricanes = eng.state.hurricanes ++
      [⟨eng.state.time + timeToNext, cat.name, cat.damage⟩] ∧
    res.1.state.extinctSpecies = st1.extinctSpecies ∪
      ((List.range st1.populations.length).filter
        (fun i => belowThreshold eng.extinctionThresholds i
          (vget st1.populations i * (1 - cat.damage)))).toFinset ∧
    ∀ i, i < st1.populations.length → i < eng.extinctionThresholds.length →
      ((vget st1.populations i * (1 - cat.damage) < vget eng.extinctionThresholds i →
        vget res.1.state.populations i = 0 ∧ i ∈ res.1.state.extinctSpecies) ∧
      (¬vget st1.populations i * (1 - cat.damage) < vget eng.extinctionThresholds i →
        vget res.1.state.populations i =
          vget st1.populations i * (1 - cat.damage) ∧
        (i ∈ res.1.state.extinctSpecies ↔ i ∈ st1.extinctSpecies))) := by
  intro res st1 cat
  have hev := step_event f params fuel timeToNext randCat duration eng h1
    (not_lt.mpr h2)
  have hres1 : res.1 = { eng with state :=
      { st1 with
        hurricanes := st1.hurricanes ++
          [⟨eng.state.time + timeToNext, cat.name, cat.damage⟩],
        populations := (applyShock eng.extinctionThresholds cat.damage
          st1.populations st1.extinctSpecies).1,
        extinctSpecies := (applyShock eng.extinctionThresholds cat.damage
          st1.populations st1.extinctSpecies).2,
        history := st1.history ++ [(eng.state.time + timeToNext,
          (applyShock eng.extinctionThresholds cat.damage st1.populations
            st1.extinctSpecies).1)] } } := by
    rw [show res = step f params fuel timeToNext randCat duration eng from rfl, hev]
  have hres2 : res.2 = some (eng.state.time + timeToNext) := by
    rw [show res = step f params fuel timeToNext randCat duration eng from rfl, hev]
  refine ⟨hres2, ?_, ?_, ?_⟩
  · rw [hres1]
    show st1.hurricanes ++ _ = _
    rw [(integrateSegment_frame f params fuel eng.config.timeStep eng.state
      (eng.state.time + timeToNext)).1]
  · rw [hres1]
    rfl
  · intro i hlen hthr
    constructor
    · intro hbelow
      constructor
      · rw [hres1]
        show vget (applyShock eng.extinctionThresholds cat.damage st1.populations st1.extinctSpecies).1 i = 0
        rw [applyShock_pops_vget _ _ _ _ i hlen, belowThreshold_eq _ _ _ hthr]
        simp [hbelow]
      · rw [hres1]
        show i ∈ (applyShock eng.extinctionThresholds cat.damage st1.populations st1.extinctSpecies).2
        rw [applyShock_ext_mem]
        exact Or.inr ⟨hlen, by rw [belowThreshold_eq _ _ _ hthr]; simpa using hbelow⟩
    · intro hnb
      constructor
      · rw [hres1]
        show vget (applyShock eng.extinctionThresholds cat.damage st1.populations st1.extinctSpecies).1 i = vget st1.populations i * (1 - cat.damage)
        rw [applyShock_pops_vget _ _ _ _ i hlen, belowThreshold_eq _ _ _ hthr]
        simp [hnb]
      · rw [hres1]
        show i ∈ (applyShock eng.extinctionThresholds cat.damage st1.populations st1.extinctSpecies).2 ↔ i ∈ st1.extinctSpecies
        rw [applyShock_ext_mem]
        constructor
        · rintro (h | ⟨_, hb⟩)
          · exact h
          · rw [belowThreshold_eq _ _ _ hthr] at hb
            exact absurd (of_decide_eq_true hb) hnb
        · exact Or.inl

/-- Witness for C1: a retained event with damage `199/200` on population
`[1]` with threshold `1/100` stores exactly `0` and marks index `0`
extinct. -/
theorem C1_shock_application_witness :
    let eng := mkEngine [1] ⟨1, [⟨"h4", 1, 199 / 200⟩], 1 / 100, 1 / 10⟩
    let res := step (fun _ _ (_ : Unit) => [0]) () 0 0 0 0 eng
    (0 : ℚ) < eng.config.hurricaneRate ∧
    eng.state.time + 0 ≤ eng.state.time + 0 ∧
    vget (integrateSegment (fun _ _ (_ : Unit) => [0]) () 0 eng.config.timeStep
        eng.state (eng.state.time + 0)).populations 0 *
      (1 - (drawHurricaneDamage 0 eng.config.hurricaneCategories).damage) <
      vget eng.extinctionThresholds 0 ∧
    res.2 = some (eng.state.time + 0) ∧
    vget res.1.state.populations 0 = 0 ∧
    0 ∈ res.1.state.extinctSpecies ∧
    res.1.state.hurricanes =
      eng.state.hurricanes ++ [⟨eng.state.time + 0, "h4", 199 / 200⟩] := by
  intro eng res
  have h := C1_shock_application (fun _ _ (_ : Unit) => [0]) () 0 0 0 0 eng
    (by decide!) (by decide!)
  have h4 := (h.2.2.2 0 (by decide!) (by decide!)).1 (by decide!)
  exact ⟨by decide!, by decide!, by decide!, h.1, h4.1, h4.2,
    by rw [h.2.1]; decide!⟩

/-- Counterexample to C7 as stated: after `updateConfig` raises the
extinction threshold fraction from `1/100` to `1/2`, a shock damaging
population `1` to `1/10` leaves it below the new fraction's threshold
`1 × 1/2`, yet the engine stores `1/10` (not `0`) and marks nothing
extinct — the thresholds computed at initialization are still in use. -/
theorem C7_stale_threshold_counterexample :
    let eng := mkEngine [1] ⟨1, [⟨"h", 1, 9 / 10⟩], 1 / 100, 1 / 10⟩
    let eng2 := updateConfig ⟨none, none, some (1 / 2), none⟩ eng
    let res := step (fun _ _ (_ : Unit) => [0]) () 0 0 0 0 eng2
    eng2.config.extinctionThreshold = 1 / 2 ∧
    vget eng.initialPopulations 0 * eng2.config.extinctionThreshold = 1 / 2 ∧
    res.2 = some 0 ∧
    vget res.1.state.populations 0 = 1 / 10 ∧
    (1 : ℚ) / 10 < 1 / 2 ∧
    0 ∉ res.1.state.extinctSpecies := by
  intro eng eng2 res
  refine ⟨by decide!, by decide!, by decide!, by decide!, by decide!, by decide!⟩

/-- Claim C7 (amended): `updateConfig` merges the patch into the
configuration and the merged fields govern the next `step` call, but the
extinction thresholds, initial populations and state are untouched — a
subsequent step still tests shock-damaged populations against the
thresholds fixed at initialization/reset. -/
theorem C7_updateConfig_merge (patch : ConfigPatch) (eng : SimulationEngine) :
    (updateConfig patch eng).config = mergeConfig eng.config patch ∧
    (updateConfig patch eng).extinctionThresholds = eng.extinctionThresholds ∧
    (updateConfig patch eng).initialPopulations = eng.initialPopulations ∧
    (updateConfig patch eng).state = eng.state ∧
    ∀ {P : Type} (f : ODEFunction P) (params : P) (fuel : ℕ)
      (timeToNext randCat duration : ℚ),
      step f params fuel timeToNext randCat duration (updateConfig patch eng) =
        step f params fuel timeToNext randCat duration
          ⟨mergeConfig eng.config patch, eng.initialPopulations,
            eng.extinctionThresholds, eng.state⟩ :=
  ⟨rfl, rfl, rfl, rfl, fun _ _ _ _ _ _ => rfl⟩

/-- History/time invariant maintained by the engine: the history starts
with `(0, initialPopulations)`, its times never decrease, its final
sample's time is the current time, and every logged hurricane has a
history sample at its event time. -/
def StateInv (initPops : List ℚ) (st : SimulationState) : Prop :=
  st.history.head? = some (0, initPops) ∧
  List.Chain' (fun a b => a.1 ≤ b.1) st.history ∧
  st.history.getLast?.map Prod.fst = some st.time ∧
  ∀ e ∈ st.hurricanes, ∃ y, (e.time, y) ∈ st.history

theorem solveODEFrom_time_mono {P : Type} (f : ODEFunction P) (params : P)
    (t1 dt : ℚ) (hdt : 0 < dt) :
    ∀ (fuel : ℕ) (t : ℚ) (y : List ℚ),
      List.Chain' (fun a b => a.1 ≤ b.1)
        ((t, y) :: solveODEFrom f params t1 dt fuel t y) := by
  intro fuel
  induction fuel with
  | zero => intro t y; simp [solveODEFrom]
  | succ n ih =>
    intro t y
    rw [solveODEFrom]
    by_cases ht : t < t1
    · rw [if_pos ht]
      refine List.chain'_cons.mpr ⟨?_, ih _ _⟩
      have hpos : 0 < min dt (t1 - t) := lt_min hdt (by linarith)
      show t ≤ t + min dt (t1 - t)
      linarith
    · rw [if_neg ht]
      simp

theorem integrateSegment_history {P : Type} (f : ODEFunction P) (params : P)
    (fuel : ℕ) (timeStep : ℚ) (st : SimulationState) (actualEndTime : ℚ) :
    (integrateSegment f params fuel timeStep st actualEndTime).history =
      st.history ++ (if st.time < actualEndTime
        then solveODEFrom f params actualEndTime timeStep fuel st.time st.populations
        else []) := by
  rw [integrateSegment]
  by_cases h : st.time < actualEndTime
  · rw [if_pos h, if_pos h]
    rfl
  · rw [if_neg h, if_neg h]
    simp

theorem integrateSegment_time_of_le {P : Type} (f : ODEFunction P) (params : P)
    (fuel : ℕ) (timeStep : ℚ) (st : SimulationState) (actualEndTime : ℚ)
    (h : st.time ≤ actualEndTime) :
    (integrateSegment f params fuel timeStep st actualEndTime).time =
      actualEndTime := by
  rw [integrateSegment]
  by_cases hlt : st.time < actualEndTime
  · rw [if_pos hlt]
  · rw [if_neg hlt]
    exact le_antisymm h (not_lt.mp hlt)

theorem integrateSegment_stateInv {P : Type} (f : ODEFunction P) (params : P)
    (fuel : ℕ) (timeStep : ℚ) (st : SimulationState) (actualEndTime : ℚ)
    (initPops : List ℚ) (hdt : 0 < timeStep)
    (hfuel : actualEndTime - st.time ≤ (fuel : ℚ) * timeStep)
    (hinv : StateInv initPops st) :
    StateInv initPops (integrateSegment f params fuel timeStep st actualEndTime) := by
  obtain ⟨hhead, hchain, hlast, hev⟩ := hinv
  by_cases h : st.time < actualEndTime
  swap
  · rw [integrateSegment, if_neg h]
    exact ⟨hhead, hchain, hlast, hev⟩
  · have hne : st.history ≠ [] := by
      intro hc
      rw [hc] at hhead
      simp at hhead
    have hmono := solveODEFrom_time_mono f params actualEndTime timeStep hdt fuel
      st.time st.populations
    obtain ⟨yl, hyl⟩ := solveODEFrom_getLast f params actualEndTime timeStep hdt
      fuel st.time st.populations h hfuel
    have htailne : solveODEFrom f params actualEndTime timeStep fuel st.time
        st.populations ≠ [] := by
      intro hc
      rw [hc] at hyl
      simp at hyl
    have hhist := integrateSegment_history f params fuel timeStep st actualEndTime
    rw [if_pos h] at hhist
    have htime : (integrateSegment f params fuel timeStep st actualEndTime).time =
        actualEndTime := integrateSegment_time_of_le f params fuel timeStep st
      actualEndTime (le_of_lt h)
    have hhurr := (integrateSegment_frame f params fuel timeStep st actualEndTime).1
    refine ⟨?_, ?_, ?_, ?_⟩
    · rw [hhist, List.head?_append, hhead]
      rfl
    · rw [hhist]
      refine List.chain'_append.mpr ⟨hchain, List.Chain'.tail hmono, ?_⟩
      intro x hx y hy
      cases hg : st.history.getLast? with
      | none => rw [hg] at hx; simp at hx
      | some xl =>
        rw [hg] at hx hlast
        have hxeq : x = xl := by have := hx; simpa using this.symm
        have hxt : x.1 = st.time := by
          rw [hxeq]
          simpa using hlast
        cases htl : solveODEFrom f params actualEndTime timeStep fuel st.time
            st.populations with
        | nil => rw [htl] at hy; simp at hy
        | cons hd tl =>
          rw [htl] at hy
          have hyeq : y = hd := by have := hy; simpa using this.symm
          rw [htl] at hmono
          have hrel := (List.chain'_cons.mp hmono).1
          rw [hxt, hyeq]
          exact hrel
    · rw [hhist, htime, List.getLast?_append, hyl]
      rfl
    · intro e he
      rw [hhurr] at he
      obtain ⟨y, hy⟩ := hev e he
      exact ⟨y, by rw [hhist]; exact List.mem_append_left _ hy⟩

theorem step_stateInv {P : Type} (f : ODEFunction P) (params : P) (fuel : ℕ)
    (timeToNext randCat duration : ℚ) (eng : SimulationEngine)
    (hdt : 0 < eng.config.timeStep) (httn : 0 ≤ timeToNext)
    (hfuel : duration ≤ (fuel : ℚ) * eng.config.timeStep)
    (hinv : StateInv eng.initialPopulations eng.state) :
    StateInv eng.initialPopulations
      ((step f params fuel timeToNext randCat duration eng).1).state ∧
    ((step f params fuel timeToNext randCat duration eng).1).config = eng.config ∧
    ((step f params fuel timeToNext randCat duration eng).1).initialPopulations =
      eng.initialPopulations := by
  by_cases h1 : 0 < eng.config.hurricaneRate
  · by_cases h2 : eng.state.time + duration < eng.state.time + timeToNext
    · rw [step, if_pos h1, if_pos h2]
      dsimp only [Option.getD]
      exact ⟨integrateSegment_stateInv f params fuel eng.config.timeStep eng.state
        (eng.state.time + duration) eng.initialPopulations hdt (by linarith) hinv,
        rfl, rfl⟩
    · rw [step_event f params fuel timeToNext randCat duration eng h1 h2]
      dsimp only
      have httnle : timeToNext ≤ duration := by linarith [not_lt.mp h2]
      have hst1 := integrateSegment_stateInv f params fuel eng.config.timeStep
        eng.state (eng.state.time + timeToNext) eng.initialPopulations hdt
        (by linarith) hinv
      have htime1 : (integrateSegment f params fuel eng.config.timeStep eng.state
          (eng.state.time + timeToNext)).time = eng.state.time + timeToNext :=
        integrateSegment_time_of_le f params fuel eng.config.timeStep eng.state
          (eng.state.time + timeToNext) (by linarith)
      obtain ⟨hh, hc, hl, he⟩ := hst1
      have hne : (integrateSegment f params fuel eng.config.timeStep eng.state
          (eng.state.time + timeToNext)).history ≠ [] := by
        intro hcn
        rw [hcn] at hh
        simp at hh
      refine ⟨⟨?_, ?_, ?_, ?_⟩, rfl, rfl⟩
      · show ((integrateSegment f params fuel eng.config.timeStep eng.state
            (eng.state.time + timeToNext)).history ++ _).head? = _
        rw [List.head?_append, hh]
        rfl
      · refine List.chain'_append.mpr ⟨hc, List.chain'_singleton _, ?_⟩
        intro x hx y hy
        cases hg : (integrateSegment f params fuel eng.config.timeStep eng.state
            (eng.state.time + timeToNext)).history.getLast? with
        | none => rw [hg] at hx; simp at hx
        | some xl =>
          rw [hg] at hx hl
          have hxeq : x = xl := by have := hx; simpa using this.symm
          have hyeq : y = (eng.state.time + timeToNext,
              (applyShock eng.extinctionThresholds
                (drawHurricaneDamage randCat eng.config.hurricaneCategories).damage
                (integrateSegment f params fuel eng.config.timeStep eng.state
                  (eng.state.time + timeToNext)).populations
                (integrateSegment f params fuel eng.config.timeStep eng.state
                  (eng.state.time + timeToNext)).extinctSpecies).1) := by
            have := hy
            simpa using this.symm
          have hxt : x.1 = eng.state.time + timeToNext := by
            rw [hxeq]
            rw [htime1] at hl
            simpa using hl
          rw [hxt, hyeq]
      · rw [List.getLast?_append]
        simp [htime1]
      · intro e hemem
        rcases List.mem_append.mp hemem with hold | hnew
        · obtain ⟨y, hy⟩ := he e hold
          exact ⟨y, List.mem_append_left _ hy⟩
        · have heq : e = ⟨eng.state.time + timeToNext,
              (drawHurricaneDamage randCat eng.config.hurricaneCategories).name,
              (drawHurricaneDamage randCat eng.config.hurricaneCategories).damage⟩ := by
            simpa using hnew
          refine ⟨(applyShock eng.extinctionThresholds
              (drawHurricaneDamage randCat eng.config.hurricaneCategories).damage
              (integrateSegment f params fuel eng.config.timeStep eng.state
                (eng.state.time + timeToNext)).populations
              (integrateSegment f params fuel eng.config.timeStep eng.state
                (eng.state.time + timeToNext)).extinctSpecies).1, ?_⟩
          apply List.mem_append_right
          rw [heq]
          simp
  · rw [step, if_neg h1]
    dsimp only [Option.getD]
    exact ⟨integrateSegment_stateInv f params fuel eng.config.timeStep eng.state
      (eng.state.time + duration) eng.initialPopulations hdt (by linarith) hinv,
      rfl, rfl⟩

theorem step_history_append {P : Type} (f : ODEFunction P) (params : P)
    (fuel : ℕ) (timeToNext randCat duration : ℚ) (eng : SimulationEngine) :
    ∃ l, ((step f params fuel timeToNext randCat duration eng).1).state.history =
      eng.state.history ++ l := by
  by_cases h1 : 0 < eng.config.hurricaneRate
  · by_cases h2 : eng.state.time + duration < eng.state.time + timeToNext
    · rw [step, if_pos h1, if_pos h2]
      dsimp only [Option.getD]
      exact ⟨_, integrateSegment_history f params fuel eng.config.timeStep
        eng.state (eng.state.time + duration)⟩
    · rw [step_event f params fuel timeToNext randCat duration eng h1 h2]
      dsimp only
      refine ⟨(if eng.state.time < eng.state.time + timeToNext
          then solveODEFrom f params (eng.state.time + timeToNext)
            eng.config.timeStep fuel eng.state.time eng.state.populations
          else []) ++ [(eng.state.time + timeToNext,
            (applyShock eng.extinctionThresholds
              (drawHurricaneDamage randCat eng.config.hurricaneCategories).damage
              (integrateSegment f params fuel eng.config.timeStep eng.state
                (eng.state.time + timeToNext)).populations
              (integrateSegment f params fuel eng.config.timeStep eng.state
                (eng.state.time + timeToNext)).extinctSpecies).1)], ?_⟩
      show (integrateSegment f params fuel eng.config.timeStep eng.state
          (eng.state.time + timeToNext)).history ++ _ = eng.state.history ++ _
      rw [integrateSegment_history f params fuel eng.config.timeStep eng.state
        (eng.state.time + timeToNext), List.append_assoc]
  · rw [step, if_neg h1]
    dsimp only [Option.getD]
    exact ⟨_, integrateSegment_history f params fuel eng.config.timeStep
      eng.state (eng.state.time + duration)⟩

theorem mkEngine_stateInv (pops : List ℚ) (cfg : SimulationConfig) :
    StateInv (mkEngine pops cfg).initialPopulations (mkEngine pops cfg).state := by
  refine ⟨rfl, ?_, rfl, ?_⟩
  · exact List.chain'_singleton _
  · intro e he
    simp [mkEngine, initState] at he

theorem foldSteps_stateInv {P : Type} (f : ODEFunction P) (params : P) :
    ∀ (inputs : List StepInput) (eng : SimulationEngine),
      0 < eng.config.timeStep →
      (∀ inp ∈ inputs, 0 ≤ inp.timeToNext ∧
        inp.duration ≤ (inp.fuel : ℚ) * eng.config.timeStep) →
      StateInv eng.initialPopulations eng.state →
      StateInv eng.initialPopulations (foldSteps f params inputs eng).state ∧
      (foldSteps f params inputs eng).initialPopulations = eng.initialPopulations ∧
      (foldSteps f params inputs eng).config = eng.config := by
  intro inputs
  induction inputs with
  | nil => intro eng _ _ hinv; exact ⟨hinv, rfl, rfl⟩
  | cons inp rest ih =>
    intro eng hts hins hinv
    have hstep := step_stateInv f params inp.fuel inp.timeToNext inp.randCat
      inp.duration eng hts (hins inp (List.mem_cons_self inp rest)).1
      (hins inp (List.mem_cons_self inp rest)).2 hinv
    have hrec := ih ((step f params inp.fuel inp.timeToNext inp.randCat
        inp.duration eng).1)
      (by rw [hstep.2.1]; exact hts)
      (fun j hj => by rw [hstep.2.1]; exact hins j (List.mem_cons_of_mem inp hj))
      (by rw [hstep.2.2]; exact hstep.1)
    have hfold : foldSteps f params (inp :: rest) eng =
        foldSteps f params rest ((step f params inp.fuel inp.timeToNext
          inp.randCat inp.duration eng).1) := rfl
    rw [hfold]
    refine ⟨?_, ?_, ?_⟩
    · have := hrec.1
      rw [hstep.2.2] at this
      exact this
    · rw [hrec.2.1, hstep.2.2]
    · rw [hrec.2.2, hstep.2.1]

/-- Counterexample to C6 as stated: a step that applies a shock appends
the integration sample at the event time and then the post-shock sample
at the same time, so history times are not strictly increasing. -/
theorem C6_strict_history_counterexample :
    let eng := mkEngine [1] ⟨1, [⟨"h", 1, 1 / 2⟩], 1 / 100, 1 / 2⟩
    let res := step (fun _ _ (_ : Unit) => [0]) () 2 (1 / 2) 0 1 eng
    res.1.state.history = [(0, [1]), (1 / 2, [1]), (1 / 2, [1 / 2])] ∧
    ¬List.Chain' (fun a b => a.1 < b.1) res.1.state.history := by
  intro eng res
  have h : res.1.state.history = [(0, [1]), (1 / 2, [1]), (1 / 2, [1 / 2])] := by
    decide!
  refine ⟨h, ?_⟩
  intro hch
  rw [h] at hch
  have h2 := (List.chain'_cons.mp (List.chain'_cons.mp hch).2).1
  exact absurd h2 (lt_irrefl _)

theorem step_shock_append {P : Type} (f : ODEFunction P) (params : P)
    (fuel : ℕ) (timeToNext randCat duration : ℚ) (eng : SimulationEngine)
    (ht : ℚ) (hev : (step f params fuel timeToNext randCat duration eng).2 = some ht) :
    ((step f params fuel timeToNext randCat duration eng).1).state.history =
      (integrateSegment f params fuel eng.config.timeStep eng.state ht).history ++
        [(ht, ((step f params fuel timeToNext randCat duration
          eng).1).state.populations)] := by
  by_cases h1 : 0 < eng.config.hurricaneRate
  · by_cases h2 : eng.state.time + duration < eng.state.time + timeToNext
    · rw [step, if_pos h1, if_pos h2] at hev
      simp at hev
    · have hht : ht = eng.state.time + timeToNext := by
        rw [step_event f params fuel timeToNext randCat duration eng h1 h2] at hev
        exact (Option.some.inj hev).symm
      subst hht
      rw [step_event f params fuel timeToNext randCat duration eng h1 h2]
  · rw [step, if_neg h1] at hev
    simp at hev

theorem foldSteps_append {P : Type} (f : ODEFunction P) (params : P)
    (l1 l2 : List StepInput) (eng : SimulationEngine) :
    foldSteps f params (l1 ++ l2) eng =
      foldSteps f params l2 (foldSteps f params l1 eng) := by
  simp [foldSteps, List.foldl_append]

theorem foldSteps_mem_history {P : Type} (f : ODEFunction P) (params : P) :
    ∀ (inputs : List StepInput) (eng : SimulationEngine) (x : ℚ × List ℚ),
      x ∈ eng.state.history → x ∈ (foldSteps f params inputs eng).state.history := by
  intro inputs
  induction inputs with
  | nil => intro eng x hx; exact hx
  | cons inp rest ih =>
    intro eng x hx
    have hfold : foldSteps f params (inp :: rest) eng =
        foldSteps f params rest ((step f params inp.fuel inp.timeToNext
          inp.randCat inp.duration eng).1) := rfl
    rw [hfold]
    apply ih
    obtain ⟨l, hl⟩ := step_history_append f params inp.fuel inp.timeToNext
      inp.randCat inp.duration eng
    rw [hl]
    exact List.mem_append_left _ hx

/-- Claim C6 (amended): after any sequence of `step` calls on an engine
whose state is the fresh/reset initial state (waiting times nonnegative,
positive time step, enough fuel per call), the history is an append-only
log with non-decreasing times — the pre-shock and post-shock samples
share the event time — starting at `(0, initialPopulations)`; and at
every call of the sequence that applies a shock, the post-shock
population snapshot is the sample appended to history at the event time
right after the integration segment, and that exact snapshot is still
present in the final history. -/
theorem C6_history_log {P : Type} (f : ODEFunction P) (params : P)
    (eng0 : SimulationEngine) (inputs : List StepInput)
    (h0 : eng0.state = initState eng0.initialPopulations)
    (hts : 0 < eng0.config.timeStep)
    (hins : ∀ inp ∈ inputs, 0 ≤ inp.timeToNext ∧
      inp.duration ≤ (inp.fuel : ℚ) * eng0.config.timeStep) :
    (foldSteps f params inputs eng0).state.history.head? =
      some (0, eng0.initialPopulations) ∧
    List.Chain' (fun a b => a.1 ≤ b.1)
      (foldSteps f params inputs eng0).state.history ∧
    (∀ e ∈ (foldSteps f params inputs eng0).state.hurricanes,
      ∃ y, (e.time, y) ∈ (foldSteps f params inputs eng0).state.history) ∧
    (∀ (pre : List StepInput) (inp : StepInput) (post : List StepInput) (ht : ℚ),
      inputs = pre ++ inp :: post →
      (step f params inp.fuel inp.timeToNext inp.randCat inp.duration
        (foldSteps f params pre eng0)).2 = some ht →
      ((step f params inp.fuel inp.timeToNext inp.randCat inp.duration
        (foldSteps f params pre eng0)).1).state.history =
        (integrateSegment f params inp.fuel
          (foldSteps f params pre eng0).config.timeStep
          (foldSteps f params pre eng0).state ht).history ++
          [(ht, ((step f params inp.fuel inp.timeToNext inp.randCat inp.duration
            (foldSteps f params pre eng0)).1).state.populations)] ∧
      (ht, ((step f params inp.fuel inp.timeToNext inp.randCat inp.duration
        (foldSteps f params pre eng0)).1).state.populations) ∈
        (foldSteps f params inputs eng0).state.history) ∧
    ∀ (inp : StepInput), ∃ l,
      ((step f params inp.fuel inp.timeToNext inp.randCat inp.duration
        (foldSteps f params inputs eng0)).1).state.history =
      (foldSteps f params inputs eng0).state.history ++ l := by
  have hinv0 : StateInv eng0.initialPopulations eng0.state := by
    rw [h0]
    refine ⟨rfl, List.chain'_singleton _, rfl, ?_⟩
    intro e he
    simp [initState] at he
  obtain ⟨⟨hh, hc, _, he⟩, _, _⟩ := foldSteps_stateInv f params inputs eng0 hts
    hins hinv0
  refine ⟨hh, hc, he, ?_, fun inp => step_history_append f params inp.fuel
    inp.timeToNext inp.randCat inp.duration (foldSteps f params inputs eng0)⟩
  intro pre inp post ht hdec hev
  refine ⟨step_shock_append f params inp.fuel inp.timeToNext inp.randCat
    inp.duration (foldSteps f params pre eng0) ht hev, ?_⟩
  rw [hdec, foldSteps_append]
  have hfold : foldSteps f params (inp :: post) (foldSteps f params pre eng0) =
      foldSteps f params post ((step f params inp.fuel inp.timeToNext
        inp.randCat inp.duration (foldSteps f params pre eng0)).1) := rfl
  rw [hfold]
  apply foldSteps_mem_history
  rw [step_shock_append f params inp.fuel inp.timeToNext inp.randCat
    inp.duration (foldSteps f params pre eng0) ht hev]
  exact List.mem_append_right _ (by simp)

/-- Witness for C6 on a freshly constructed engine driven by one step
that applies a shock at time `0`. -/
theorem C6_history_log_witness :
    let eng0 := mkEngine [1] ⟨1, [⟨"h", 1, 1 / 2⟩], 1 / 100, 1 / 2⟩
    let inputs : List StepInput := [⟨0, 0, 0, 0⟩]
    eng0.state = initState eng0.initialPopulations ∧
    (0 : ℚ) < eng0.config.timeStep ∧
    (∀ inp ∈ inputs, 0 ≤ inp.timeToNext ∧
      inp.duration ≤ (inp.fuel : ℚ) * eng0.config.timeStep) ∧
    ((foldSteps (fun _ _ (_ : Unit) => [0]) () inputs eng0).state.history.head? =
      some (0, eng0.initialPopulations) ∧
    List.Chain' (fun a b => a.1 ≤ b.1)
      (foldSteps (fun _ _ (_ : Unit) => [0]) () inputs eng0).state.history ∧
    (∀ e ∈ (foldSteps (fun _ _ (_ : Unit) => [0]) () inputs eng0).state.hurricanes,
      ∃ y, (e.time, y) ∈
        (foldSteps (fun _ _ (_ : Unit) => [0]) () inputs eng0).state.history) ∧
    (∀ (pre : List StepInput) (inp : StepInput) (post : List StepInput) (ht : ℚ),
      inputs = pre ++ inp :: post →
      (step (fun _ _ (_ : Unit) => [0]) () inp.fuel inp.timeToNext inp.randCat
        inp.duration (foldSteps (fun _ _ (_ : Unit) => [0]) () pre eng0)).2 =
        some ht →
      ((step (fun _ _ (_ : Unit) => [0]) () inp.fuel inp.timeToNext inp.randCat
        inp.duration (foldSteps (fun _ _ (_ : Unit) => [0]) () pre
          eng0)).1).state.history =
        (integrateSegment (fun _ _ (_ : Unit) => [0]) () inp.fuel
          (foldSteps (fun _ _ (_ : Unit) => [0]) () pre eng0).config.timeStep
          (foldSteps (fun _ _ (_ : Unit) => [0]) () pre eng0).state ht).history ++
          [(ht, ((step (fun _ _ (_ : Unit) => [0]) () inp.fuel inp.timeToNext
            inp.randCat inp.duration (foldSteps (fun _ _ (_ : Unit) => [0]) () pre
              eng0)).1).state.populations)] ∧
      (ht, ((step (fun _ _ (_ : Unit) => [0]) () inp.fuel inp.timeToNext
        inp.randCat inp.duration (foldSteps (fun _ _ (_ : Unit) => [0]) () pre
          eng0)).1).state.populations) ∈
        (foldSteps (fun _ _ (_ : Unit) => [0]) () inputs eng0).state.history) ∧
    ∀ (inp : StepInput), ∃ l,
      ((step (fun _ _ (_ : Unit) => [0]) () inp.fuel inp.timeToNext inp.randCat
        inp.duration (foldSteps (fun _ _ (_ : Unit) => [0]) () inputs
          eng0)).1).state.history =
      (foldSteps (fun _ _ (_ : Unit) => [0]) () inputs eng0).state.history ++ l) := by
  intro eng0 inputs
  have hins : ∀ inp ∈ inputs, 0 ≤ inp.timeToNext ∧
      inp.duration ≤ (inp.fuel : ℚ) * eng0.config.timeStep := by
    intro i hi
    rw [List.mem_singleton] at hi
    subst hi
    exact ⟨le_refl 0, by decide!⟩
  refine ⟨rfl, by decide!, hins, ?_⟩
  exact C6_history_log (fun _ _ (_ : Unit) => [0]) () eng0 inputs rfl (by decide!)
    hins
